import Mathlib

/-!
Verification of the region-selection core of `src/app/api/session/route.ts`.

The TypeScript code works on plain JavaScript objects whose keys are strings;
TypeScript union types such as `BrowserbaseRegion` are erased at runtime, so a
malformed configuration object can carry keys outside the four-region
enumeration.  We therefore embed regions as `String` and distribution rows and
tables as association lists `List (String × ℚ)` / `List (String × Row)`,
whose list order models the JavaScript object's own insertion (iteration)
order as produced by `Object.entries`.  Weights and the random draw
`Math.random() * 100` are modelled as rationals, and the hidden random draw
is made an explicit argument so the selector is a pure function.
-/

namespace GeminiBrowser

/-- The four members of the `BrowserbaseRegion` union type, in declaration
order. -/
def validRegions : List String :=
  ["us-west-2", "us-east-1", "eu-central-1", "ap-southeast-1"]

/-- A distribution row: weights keyed by region name, in the object's own
entry order (`Object.entries`). -/
abbrev DistributionRow := List (String × ℚ)

/-- A distribution table: one row per base region, keyed by region name. -/
abbrev DistributionTable := List (String × DistributionRow)

/-- JavaScript property access `obj[key]` on an object embedded as an
association list: the value at the key, or `none` (i.e. `undefined`) when the
key is absent. -/
def lookupStr {α : Type} : List (String × α) → String → Option α
  | [], _ => none
  | (k, v) :: rest, key => if k = key then some v else lookupStr rest key

/-- JavaScript `.toUpperCase()` restricted to the ASCII range, which covers
every key of the abbreviation map: uppercase each character. -/
def toUpperStr (s : String) : String :=
  ⟨s.data.map Char.toUpper⟩

/-- The `timezoneAbbreviationMap` constant from the source, entry for entry. -/
def timezoneAbbreviationMap : List (String × String) :=
  [ ("EST", "us-east-1"), ("EDT", "us-east-1"),
    ("PST", "us-west-2"), ("PDT", "us-west-2"),
    ("MST", "us-west-2"), ("MDT", "us-west-2"),
    ("CST", "us-east-1"), ("CDT", "us-east-1"),
    ("GMT", "eu-central-1"), ("BST", "eu-central-1"),
    ("CET", "eu-central-1"), ("CEST", "eu-central-1"),
    ("EET", "eu-central-1"), ("EEST", "eu-central-1"),
    ("WET", "eu-central-1"), ("WEST", "eu-central-1"),
    ("JST", "ap-southeast-1"), ("KST", "ap-southeast-1"),
    ("IST", "ap-southeast-1"), ("AEST", "ap-southeast-1"),
    ("AEDT", "ap-southeast-1"), ("AWST", "ap-southeast-1"),
    ("NZST", "ap-southeast-1"), ("NZDT", "ap-southeast-1") ]

/-- The `defaultDistributions` constant from the source: per base region a
self-loop weight of 100 listed first, followed by the other regions with
weight 0, in the source's own entry order. -/
def defaultDistributions : DistributionTable :=
  [ ("us-west-2",
      [("us-west-2", 100), ("us-east-1", 0), ("eu-central-1", 0),
       ("ap-southeast-1", 0)]),
    ("us-east-1",
      [("us-east-1", 100), ("us-west-2", 0), ("eu-central-1", 0),
       ("ap-southeast-1", 0)]),
    ("eu-central-1",
      [("eu-central-1", 100), ("us-west-2", 0), ("us-east-1", 0),
       ("ap-southeast-1", 0)]),
    ("ap-southeast-1",
      [("ap-southeast-1", 100), ("us-west-2", 0), ("us-east-1", 0),
       ("eu-central-1", 0)]) ]

/-- The `for (const [region, probability] of Object.entries(distribution))`
loop of `selectRegionWithProbability`: walk the row's entries in their own
order, accumulating `cumulativeProbability`, and return the first region
whose cumulative weight exceeds the draw; fall through to the base region. -/
def walkRow (baseRegion : String) (random : ℚ) :
    DistributionRow → ℚ → String
  | [], _ => baseRegion
  | (region, probability) :: rest, cum =>
      if random < cum + probability then region
      else walkRow baseRegion random rest (cum + probability)

/-- `selectRegionWithProbability` from the source, with the hidden
`Math.random() * 100` draw made an explicit argument `random`. -/
def selectRegionWithProbability (baseRegion : String)
    (distributions : DistributionTable) (random : ℚ) : String :=
  match lookupStr distributions baseRegion with
  | none => baseRegion
  | some distribution => walkRow baseRegion random distribution 0

/-- `getRegionFromTimezoneAbbr` from the source: `none` models an absent
argument; the empty string is also falsy in JavaScript, so both yield the
default region. -/
def getRegionFromTimezoneAbbr (timezoneAbbr : Option String) : String :=
  match timezoneAbbr with
  | none => "us-west-2"
  | some s =>
      if s = "" then "us-west-2"
      else
        match lookupStr timezoneAbbreviationMap (toUpperStr s) with
        | some region => region
        | none => "us-west-2"

/-- Spec-side selector for comparison (the walk order the spec describes in
§4.3 step 3): walk ALL regions in the fixed enumeration order of
`validRegions`, independent of the row's own entry order, taking the weight
of each region from the row (0 when the row lacks it). -/
def selectRegionFixedOrder (baseRegion : String)
    (distributions : DistributionTable) (random : ℚ) : String :=
  match lookupStr distributions baseRegion with
  | none => baseRegion
  | some distribution =>
      walkRow baseRegion random
        (validRegions.map (fun reg => (reg, (lookupStr distribution reg).getD 0)))
        0

/-- Sum of the first `n` weights of a row: the value of the
cumulative-probability ladder after `n` entries. -/
def sumTo (entries : DistributionRow) (n : ℕ) : ℚ :=
  ((entries.take n).map Prod.snd).sum

/-- The `EdgeConfig` interface from the source: every field may be absent
from the fetched configuration. -/
structure EdgeConfig where
  advancedStealth : Option Bool
  proxies : Option Bool
  regionDistribution : Option DistributionTable

/-- The `config` local of `createSession`: `none` models a fetch that threw
or returned a falsy value, in which case the code falls back to the empty
object `{}` (every field absent). -/
def configFromFetch (fetchResult : Option EdgeConfig) : EdgeConfig :=
  fetchResult.getD ⟨none, none, none⟩

/-- The `advancedStealth` and `proxies` locals of `createSession`: each flag
independently defaults to `true` via `??` when absent. -/
def resolvedFlags (fetchResult : Option EdgeConfig) : Bool × Bool :=
  ((configFromFetch fetchResult).advancedStealth.getD true,
   (configFromFetch fetchResult).proxies.getD true)

/-- The `distributions` local of `createSession`:
`distributionsConfig ?? defaultDistributions`. -/
def resolvedDistributions (fetchResult : Option EdgeConfig) : DistributionTable :=
  (configFromFetch fetchResult).regionDistribution.getD defaultDistributions

/-- The `browserSettings` object built by `createSession`: the object spread
sets `os` in both branches of the conditional, so the field is never
absent. -/
structure BrowserSettings where
  viewportWidth : ℕ
  viewportHeight : ℕ
  blockAds : Bool
  advancedStealth : Bool
  os : String
deriving DecidableEq

/-- The argument object of `bb.sessions.create` in `createSession`. -/
structure SessionCreateParams where
  proxies : Bool
  browserSettings : BrowserSettings
  keepAlive : Bool
  region : String
deriving DecidableEq

/-- The pure computation of `createSession` up to the provider call: resolve
the config flags and table, build `browserSettings`, resolve the base region
from the timezone abbreviation, apply probability routing, and assemble the
session-creation request. -/
def buildSessionParams (fetchResult : Option EdgeConfig)
    (timezone : Option String) (random : ℚ) : SessionCreateParams :=
  let advancedStealth := (resolvedFlags fetchResult).1
  let proxies := (resolvedFlags fetchResult).2
  let browserSettings : BrowserSettings :=
    { viewportWidth := 2560
      viewportHeight := 1440
      blockAds := true
      advancedStealth := advancedStealth
      os := if advancedStealth then "windows" else "linux" }
  let closestRegion := getRegionFromTimezoneAbbr timezone
  let finalRegion :=
    selectRegionWithProbability closestRegion
      (resolvedDistributions fetchResult) random
  { proxies := proxies
    browserSettings := browserSettings
    keepAlive := true
    region := finalRegion }

/-- The session object returned by the provider: its id and connect URL are
the parts the handler reads. -/
structure SessionHandle where
  id : String
  connectUrl : String

/-- The JSON body of a response from the `POST` handler. -/
inductive PostBody
  | success (sessionId : String) (sessionUrl : String) (connectUrl : String)
  | failure (error : String)
deriving DecidableEq

/-- The `POST` handler: the whole create flow sits in one `try`; any error
from `createSession` or `getDebugUrl` reaches the single `catch`, which
responds with status 500 and the fixed failure body.  The provider calls are
abstracted as `Except` results. -/
def POST (createResult : Except String SessionHandle)
    (debugResult : String → Except String String) : ℕ × PostBody :=
  match createResult with
  | .error _ => (500, .failure "Failed to create session")
  | .ok session =>
      match debugResult session.id with
      | .error _ => (500, .failure "Failed to create session")
      | .ok liveUrl => (200, .success session.id liveUrl session.connectUrl)

/-- The `DELETE` handler: it awaits `endSession` (the provider `update` call)
with no `try`/`catch`, so an error propagates to the caller; on completion it
responds `{ success: true }` with the default status 200. -/
def DELETE (updateResult : Except String Unit) : Except String (ℕ × Bool) :=
  match updateResult with
  | .error e => .error e
  | .ok _ => .ok (200, true)

/-- Cumulative ladder over a cons cell: the weight of the head plus the
ladder of the tail. -/
theorem sumTo_cons (a : String) (w : ℚ) (rest : DistributionRow) (n : ℕ) :
    sumTo ((a, w) :: rest) (n + 1) = w + sumTo rest n := by
  simp [sumTo]

/-- A successful association-list lookup yields one of the listed values. -/
theorem lookupStr_mem {α : Type} (l : List (String × α)) (key : String) (v : α)
    (h : lookupStr l key = some v) : v ∈ l.map Prod.snd := by
  induction l with
  | nil => simp [lookupStr] at h
  | cons p rest ih =>
      obtain ⟨k, w⟩ := p
      by_cases hk : k = key
      · simp [lookupStr, hk] at h
        simp [h]
      · simp [lookupStr, hk] at h
        simp [ih h]

/-- First-hit characterization of the cumulative walk: if the ladder first
exceeds the draw at index `i`, the walk returns the region at index `i`. -/
theorem walkRow_hit (base : String) (r : ℚ) (entries : DistributionRow) :
    ∀ (cum : ℚ) (i : ℕ) (hi : i < entries.length),
      r < cum + sumTo entries (i + 1) →
      (∀ j < i, ¬ r < cum + sumTo entries (j + 1)) →
      walkRow base r entries cum = (entries.get ⟨i, hi⟩).1 := by
  induction entries with
  | nil => intro cum i hi; simp at hi
  | cons e rest ih =>
      obtain ⟨region, p⟩ := e
      intro cum i hi hhit hbefore
      cases i with
      | zero =>
          rw [sumTo_cons] at hhit
          simp [sumTo] at hhit
          simp [walkRow, if_pos (by linarith [hhit] : r < cum + p)]
      | succ k =>
          have hmiss0 : ¬ r < cum + sumTo ((region, p) :: rest) 1 :=
            hbefore 0 (Nat.succ_pos k)
          rw [sumTo_cons] at hmiss0
          simp [sumTo] at hmiss0
          have hk : k < rest.length := by simpa using hi
          have hhit2 : r < (cum + p) + sumTo rest (k + 1) := by
            rw [sumTo_cons] at hhit; linarith
          have hbefore2 : ∀ j < k, ¬ r < (cum + p) + sumTo rest (j + 1) := by
            intro j hj
            have := hbefore (j + 1) (Nat.succ_lt_succ hj)
            rw [sumTo_cons] at this
            intro hcon; exact this (by linarith)
          have hstep : ¬ r < cum + p := not_lt.mpr hmiss0
          simp [walkRow, if_neg hstep]
          exact ih (cum + p) k hk hhit2 hbefore2

/-- Exhaustion of the cumulative walk: when the draw is at least the running
total plus the whole remaining mass and all weights are non-negative, the
walk falls through to the base region. -/
theorem walkRow_miss (base : String) (r : ℚ) (entries : DistributionRow) :
    ∀ cum : ℚ, (∀ e ∈ entries, 0 ≤ e.2) →
      cum + (entries.map Prod.snd).sum ≤ r →
      walkRow base r entries cum = base := by
  induction entries with
  | nil => intro cum _ _; simp [walkRow]
  | cons e rest ih =>
      obtain ⟨region, p⟩ := e
      intro cum hw hle
      have hrest : 0 ≤ (rest.map Prod.snd).sum := by
        apply List.sum_nonneg
        intro x hx
        obtain ⟨y, hy, rfl⟩ := List.mem_map.mp hx
        exact hw y (List.mem_cons_of_mem _ hy)
      simp only [List.map_cons, List.sum_cons] at hle
      have hstep : ¬ r < cum + p := by
        intro hcon; linarith
      simp only [walkRow, if_neg hstep]
      exact ih (cum + p) (fun x hx => hw x (List.mem_cons_of_mem _ hx))
        (by linarith)

/-- With non-negative weights and a draw at least the running total, the walk
returns the base region or a listed region of strictly positive weight. -/
theorem walkRow_pos (base : String) (r : ℚ) (entries : DistributionRow) :
    ∀ cum : ℚ, (∀ e ∈ entries, 0 ≤ e.2) → cum ≤ r →
      walkRow base r entries cum = base ∨
        ∃ e ∈ entries, walkRow base r entries cum = e.1 ∧ 0 < e.2 := by
  induction entries with
  | nil => intro cum _ _; left; simp [walkRow]
  | cons e rest ih =>
      obtain ⟨region, p⟩ := e
      intro cum hw hcum
      by_cases hstep : r < cum + p
      · right
        refine ⟨(region, p), List.mem_cons_self _ _, ?_, ?_⟩
        · simp [walkRow, if_pos hstep]
        · have : cum < cum + p := lt_of_le_of_lt hcum hstep
          linarith
      · have := ih (cum + p) (fun x hx => hw x (List.mem_cons_of_mem _ hx))
          (not_lt.mp hstep)
        simp only [walkRow, if_neg hstep]
        rcases this with h | ⟨x, hx, hxeq, hxpos⟩
        · left; exact h
        · right; exact ⟨x, List.mem_cons_of_mem _ hx, hxeq, hxpos⟩

/-- The walk only ever returns the base region or the key of a listed
entry, whatever the weights and the draw. -/
theorem walkRow_mem (base : String) (r : ℚ) (entries : DistributionRow) :
    ∀ cum : ℚ,
      walkRow base r entries cum = base ∨
        ∃ e ∈ entries, walkRow base r entries cum = e.1 := by
  induction entries with
  | nil => intro cum; left; simp [walkRow]
  | cons e rest ih =>
      obtain ⟨region, p⟩ := e
      intro cum
      by_cases hstep : r < cum + p
      · right
        exact ⟨(region, p), List.mem_cons_self _ _, by simp [walkRow, if_pos hstep]⟩
      · simp only [walkRow, if_neg hstep]
        rcases ih (cum + p) with h | ⟨x, hx, hxeq⟩
        · left; exact h
        · right; exact ⟨x, List.mem_cons_of_mem _ hx, hxeq⟩

/-- Claim C1, counterexample: the source selector walks `Object.entries` of
the row, i.e. the row's own insertion order, not the fixed enumeration order
of all Regions.  For the single-row table whose row lists `us-east-1` before
`us-west-2` with weights 50/50 and the draw 25, the source selector returns
`us-east-1` while the spec's fixed-order walk returns `us-west-2`. -/
theorem selectRegion_row_order_cex :
    selectRegionWithProbability "us-west-2"
        [("us-west-2", [("us-east-1", 50), ("us-west-2", 50)])] 25 = "us-east-1" ∧
    selectRegionFixedOrder "us-west-2"
        [("us-west-2", [("us-east-1", 50), ("us-west-2", 50)])] 25 = "us-west-2" ∧
    ("us-east-1" : String) ≠ "us-west-2" := by
  refine ⟨?_, ?_, by decide⟩
  · norm_num [selectRegionWithProbability, walkRow, lookupStr]
  · norm_num [selectRegionFixedOrder, walkRow, lookupStr, validRegions]

/-- Claim C1 (amended): for every base region and table containing a row for
that base, the selector walks the row's entries in the row's OWN iteration
order (the `Object.entries` insertion order of the source object, not a fixed
enumeration order of all Regions), accumulating `cum += weight`, and returns
the entry at the first index whose cumulative weight exceeds the draw. -/
theorem selectRegion_first_hit_row_order (base : String)
    (table : DistributionTable) (r : ℚ) (row : DistributionRow)
    (h : lookupStr table base = some row)
    (i : ℕ) (hi : i < row.length)
    (hhit : r < sumTo row (i + 1))
    (hbefore : ∀ j < i, ¬ r < sumTo row (j + 1)) :
    selectRegionWithProbability base table r = (row.get ⟨i, hi⟩).1 := by
  simp only [selectRegionWithProbability, h]
  exact walkRow_hit base r row 0 i hi (by simpa using hhit)
    (by intro j hj; simpa using hbefore j hj)

/-- Claim C1, witness: at the 50/50 row listing `us-east-1` first and the
draw 60, the ladder first exceeds the draw at index 1, so the selector
returns the second entry `us-west-2`. -/
theorem selectRegion_first_hit_row_order_witness :
    selectRegionWithProbability "us-west-2"
        [("us-west-2", [("us-east-1", 50), ("us-west-2", 50)])] 60 = "us-west-2" :=
  selectRegion_first_hit_row_order "us-west-2"
    [("us-west-2", [("us-east-1", 50), ("us-west-2", 50)])] 60
    [("us-east-1", 50), ("us-west-2", 50)] (by decide) 1 (by decide)
    (by norm_num [sumTo])
    (by intro j hj
        simp only [Nat.lt_one_iff] at hj
        subst hj
        norm_num [sumTo])

/-- Claim C2, counterexample: TypeScript's `region as BrowserbaseRegion` cast
is erased at runtime, so a malformed row carrying the foreign key `mars-1`
with weight 100 makes the selector return `mars-1`, a value outside the
four-region enumeration, instead of falling back to the base region. -/
theorem selectRegion_foreign_key_cex :
    selectRegionWithProbability "us-west-2"
        [("us-west-2", [("mars-1", 100)])] 50 = "mars-1" ∧
    "mars-1" ∉ validRegions := by
  constructor
  · norm_num [selectRegionWithProbability, walkRow, lookupStr]
  · decide

/-- Claim C2 (amended): the selector's result is always either the base
region or a key of the table's rows; hence whenever the base region is one of
the four enumerated regions and every key of every row of the table lies in
the enumeration, the result is one of the four enumerated regions. -/
theorem selectRegion_valid_keys_mem (base : String) (table : DistributionTable)
    (r : ℚ) (hbase : base ∈ validRegions)
    (hkeys : ∀ p ∈ table, ∀ e ∈ p.2, e.1 ∈ validRegions) :
    selectRegionWithProbability base table r ∈ validRegions := by
  cases hlook : lookupStr table base with
  | none => simp only [selectRegionWithProbability, hlook]; exact hbase
  | some row =>
      simp only [selectRegionWithProbability, hlook]
      rcases walkRow_mem base r row 0 with h | ⟨e, he, heq⟩
      · rw [h]; exact hbase
      · rw [heq]
        have hrow := lookupStr_mem table base row hlook
        obtain ⟨p, hp, hpe⟩ := List.mem_map.mp hrow
        exact hkeys p hp e (by rw [hpe]; exact he)

/-- Claim C2, witness: the default table only carries enumerated keys, so
selecting from base `eu-central-1` at draw 17 lands in the enumeration. -/
theorem selectRegion_valid_keys_mem_witness :
    selectRegionWithProbability "eu-central-1" defaultDistributions 17 ∈ validRegions :=
  selectRegion_valid_keys_mem "eu-central-1" defaultDistributions 17
    (by decide) (by decide)

/-- Claim C3: with the static default distribution table (self-loop weight
100 listed first in each row) every draw in [0, 100) returns the base region
unchanged, for each of the four base regions; in particular the abbreviation
PST resolves to `us-west-2` and JST to `ap-southeast-1` and both survive the
probability routing unchanged under the default table. -/
theorem selectRegion_default_roundtrip (base : String) (r : ℚ)
    (hbase : base ∈ validRegions) (h0 : 0 ≤ r) (hr : r < 100) :
    selectRegionWithProbability base defaultDistributions r = base ∧
    selectRegionWithProbability (getRegionFromTimezoneAbbr (some "PST"))
        defaultDistributions r = "us-west-2" ∧
    selectRegionWithProbability (getRegionFromTimezoneAbbr (some "JST"))
        defaultDistributions r = "ap-southeast-1" := by
  have habbr1 : getRegionFromTimezoneAbbr (some "PST") = "us-west-2" := by decide
  have habbr2 : getRegionFromTimezoneAbbr (some "JST") = "ap-southeast-1" := by decide
  have key : ∀ b ∈ validRegions,
      selectRegionWithProbability b defaultDistributions r = b := by
    intro b hb
    simp only [validRegions, List.mem_cons, List.not_mem_nil, or_false] at hb
    rcases hb with rfl | rfl | rfl | rfl <;>
      simp [selectRegionWithProbability, defaultDistributions, lookupStr, walkRow, hr]
  exact ⟨key base hbase,
    by rw [habbr1]; exact key _ (by decide),
    by rw [habbr2]; exact key _ (by decide)⟩

/-- Claim C3, witness: base `eu-central-1` and draw 50 round-trip through the
default table unchanged. -/
theorem selectRegion_default_roundtrip_witness :
    selectRegionWithProbability "eu-central-1" defaultDistributions 50 = "eu-central-1" :=
  (selectRegion_default_roundtrip "eu-central-1" 50 (by decide) (by decide)
    (by decide)).1

/-- Claim C4: the timezone resolver is a total function: an absent or empty
abbreviation yields the default region `us-west-2`; otherwise the input is
uppercased and looked up in the fixed abbreviation map, the mapped region is
returned when found, and any unrecognized input again yields `us-west-2`; the
result always lies in the four-region enumeration. -/
theorem getRegion_total_default (input : Option String) :
    getRegionFromTimezoneAbbr none = "us-west-2" ∧
    getRegionFromTimezoneAbbr (some "") = "us-west-2" ∧
    (∀ s reg, s ≠ "" →
      lookupStr timezoneAbbreviationMap (toUpperStr s) = some reg →
      getRegionFromTimezoneAbbr (some s) = reg) ∧
    (∀ s, lookupStr timezoneAbbreviationMap (toUpperStr s) = none →
      getRegionFromTimezoneAbbr (some s) = "us-west-2") ∧
    getRegionFromTimezoneAbbr input ∈ validRegions := by
  refine ⟨rfl, by decide, ?_, ?_, ?_⟩
  · intro s reg hs hlook
    simp [getRegionFromTimezoneAbbr, hs, hlook]
  · intro s hlook
    by_cases hs : s = ""
    · subst hs; decide
    · simp [getRegionFromTimezoneAbbr, hs, hlook]
  · cases input with
    | none => decide
    | some s =>
        by_cases hs : s = ""
        · subst hs; decide
        · cases hlook : lookupStr timezoneAbbreviationMap (toUpperStr s) with
          | none =>
              simp only [getRegionFromTimezoneAbbr, if_neg hs, hlook]
              decide
          | some reg =>
              have hmem := lookupStr_mem _ _ _ hlook
              have hall : ∀ v ∈ timezoneAbbreviationMap.map Prod.snd,
                  v ∈ validRegions := by decide
              simp only [getRegionFromTimezoneAbbr, if_neg hs, hlook]
              exact hall reg hmem

/-- Claim C4, witness: the lowercase input `jst` is uppercased, found in the
abbreviation map, and resolves to `ap-southeast-1`. -/
theorem getRegion_total_default_witness :
    getRegionFromTimezoneAbbr (some "jst") = "ap-southeast-1" :=
  (getRegion_total_default (some "jst")).2.2.1 "jst" "ap-southeast-1"
    (by decide) (by decide)

/-- Claim C5: the selector falls back to the base region when the table has
no row for the base, and when the row's non-negative weights sum to at most
the draw (residual probability mass) the ladder exhausts every entry and the
base region is returned. -/
theorem selectRegion_fallback_cases (base : String) (table : DistributionTable)
    (r : ℚ) :
    (lookupStr table base = none → selectRegionWithProbability base table r = base) ∧
    (∀ row, lookupStr table base = some row →
      (∀ e ∈ row, 0 ≤ e.2) →
      sumTo row row.length ≤ r → r < 100 →
      selectRegionWithProbability base table r = base) := by
  constructor
  · intro h; simp [selectRegionWithProbability, h]
  · intro row h hw hsum _
    simp only [selectRegionWithProbability, h]
    apply walkRow_miss base r row 0 hw
    have hEq : sumTo row row.length = (row.map Prod.snd).sum := by
      simp [sumTo]
    rw [zero_add, ← hEq]
    exact hsum

/-- Claim C5, witness: a row whose single weight is 30 leaves the draw 50
unmatched, so the selector falls back to the base region. -/
theorem selectRegion_fallback_cases_witness :
    selectRegionWithProbability "us-west-2"
        [("us-west-2", [("us-east-1", 30)])] 50 = "us-west-2" :=
  (selectRegion_fallback_cases "us-west-2" [("us-west-2", [("us-east-1", 30)])] 50).2
    [("us-east-1", 30)] (by decide) (by decide) (by norm_num [sumTo]) (by decide)

/-- Claim C6, counterexample: `distributionsConfig ?? defaultDistributions`
replaces the table only when the fetched `regionDistribution` field is
absent; a present but partial table (here a single-row table) is used as-is
rather than being replaced wholesale by the static default table. -/
theorem resolvedDistributions_partial_kept_cex :
    resolvedDistributions
        (some ⟨none, none, some [("us-west-2", [("us-east-1", 100)])]⟩)
      = [("us-west-2", [("us-east-1", 100)])] ∧
    ([("us-west-2", [("us-east-1", 100)])] : DistributionTable) ≠ defaultDistributions :=
  ⟨rfl, by decide⟩

/-- Claim C6 (amended): when the fetch fails or returns nothing, or the
fetched config lacks the `regionDistribution` field, the static default table
is substituted in its entirety with no field-level merge; a present
`regionDistribution` value is used as-is even when partial; the
advanced-stealth and proxies flags each independently default to `true` when
absent from the fetched config. -/
theorem config_wholesale_defaults (a p : Option Bool)
    (t : Option DistributionTable) (b c : Bool) (tbl : DistributionTable) :
    resolvedDistributions none = defaultDistributions ∧
    resolvedDistributions (some ⟨a, p, none⟩) = defaultDistributions ∧
    resolvedDistributions (some ⟨a, p, some tbl⟩) = tbl ∧
    resolvedFlags none = (true, true) ∧
    resolvedFlags (some ⟨none, none, t⟩) = (true, true) ∧
    resolvedFlags (some ⟨some b, some c, t⟩) = (b, c) :=
  ⟨rfl, rfl, rfl, rfl, rfl, rfl⟩

/-- Claim C7: every session-creation request carries viewport 2560 by 1440,
ad-blocking enabled, the stealth flag resolved from config (default `true`),
OS hint `windows` when stealth is enabled and `linux` otherwise (never
absent), the proxy flag resolved from config (default `true`), keep-alive
enabled, and the selector's final region. -/
theorem buildSessionParams_fields (fetchResult : Option EdgeConfig)
    (timezone : Option String) (r : ℚ) :
    (buildSessionParams fetchResult timezone r).browserSettings.viewportWidth = 2560 ∧
    (buildSessionParams fetchResult timezone r).browserSettings.viewportHeight = 1440 ∧
    (buildSessionParams fetchResult timezone r).browserSettings.blockAds = true ∧
    (buildSessionParams fetchResult timezone r).browserSettings.advancedStealth
      = (configFromFetch fetchResult).advancedStealth.getD true ∧
    (buildSessionParams fetchResult timezone r).browserSettings.os
      = (if (buildSessionParams fetchResult timezone r).browserSettings.advancedStealth
          then "windows" else "linux") ∧
    (buildSessionParams fetchResult timezone r).proxies
      = (configFromFetch fetchResult).proxies.getD true ∧
    (buildSessionParams fetchResult timezone r).keepAlive = true ∧
    (buildSessionParams fetchResult timezone r).region
      = selectRegionWithProbability (getRegionFromTimezoneAbbr timezone)
          (resolvedDistributions fetchResult) r :=
  ⟨rfl, rfl, rfl, rfl, rfl, rfl, rfl, rfl⟩

/-- Claim C8: any error from the provider create call or the debug-URL fetch
is caught at the `POST` boundary and answered with status 500 and the fixed
body `success: false, error: Failed to create session`, exposing neither the
session nor the internal error; on success the handler answers with status
200 and the structured success body. -/
theorem POST_error_boundary (e : String) (h : SessionHandle)
    (f : String → Except String String) (liveUrl : String) :
    POST (.error e) f = (500, .failure "Failed to create session") ∧
    POST (.ok h) (fun _ => .error e) = (500, .failure "Failed to create session") ∧
    (f h.id = .ok liveUrl →
      POST (.ok h) f = (200, .success h.id liveUrl h.connectUrl)) := by
  refine ⟨rfl, rfl, fun hf => ?_⟩
  simp [POST, hf]

/-- Claim C8, witness: with a successful create and debug fetch the handler
answers 200 with the session id, debug URL and connect URL. -/
theorem POST_error_boundary_witness :
    POST (.ok ⟨"sid", "curl"⟩) (fun _ => .ok "durl")
      = (200, .success "sid" "durl" "curl") :=
  (POST_error_boundary "boom" ⟨"sid", "curl"⟩ (fun _ => .ok "durl") "durl").2.2 rfl

/-- Claim C9: the `DELETE` handler has no error branch: a completed provider
release yields `success: true` with status 200, and any error of the
provider update call propagates to the caller unhandled. -/
theorem DELETE_propagates_update_error (e : String) :
    DELETE (.ok ()) = .ok (200, true) ∧ DELETE (.error e) = .error e :=
  ⟨rfl, rfl⟩

/-- Claim C10: for a base region whose row carries only non-negative weights
and a draw of at least 0, the selector returns either the base region itself
or a key of the row whose weight is strictly positive; a zero-weight entry is
never produced. -/
theorem selectRegion_positive_weight_or_base (base : String)
    (table : DistributionTable) (r : ℚ) (row : DistributionRow)
    (h : lookupStr table base = some row)
    (hw : ∀ e ∈ row, 0 ≤ e.2) (hr : 0 ≤ r) :
    selectRegionWithProbability base table r = base ∨
      ∃ e ∈ row, selectRegionWithProbability base table r = e.1 ∧ 0 < e.2 := by
  simp only [selectRegionWithProbability, h]
  exact walkRow_pos base r row 0 hw hr

/-- Claim C10, witness: a leading zero-weight entry is skipped and the
positive-weight entry `us-east-1` is returned at draw 0. -/
theorem selectRegion_positive_weight_or_base_witness :
    selectRegionWithProbability "us-west-2"
        [("us-west-2", [("eu-central-1", 0), ("us-east-1", 100)])] 0 = "us-west-2" ∨
      ∃ e ∈ [("eu-central-1", (0:ℚ)), ("us-east-1", 100)],
        selectRegionWithProbability "us-west-2"
            [("us-west-2", [("eu-central-1", 0), ("us-east-1", 100)])] 0 = e.1 ∧ 0 < e.2 :=
  selectRegion_positive_weight_or_base "us-west-2"
    [("us-west-2", [("eu-central-1", 0), ("us-east-1", 100)])] 0
    [("eu-central-1", 0), ("us-east-1", 100)] (by decide) (by decide) (by decide)

end GeminiBrowser
